import Mathlib

/-!
Shallow embedding of `career_village_entities/__init__.py`: the entity model,
the identifier indexes, the `CareerVillage.link` routine and `CareerVillage.save`.

Representation choices:
* Python entity objects are identified by their identifiers (the link routine
  only ever reaches shared entities through uniqueness-checked id indexes); the
  mutable relationship collections and single-valued references that live on
  entity instances are embedded as id-indexed maps carried by the `CV` record.
* Answers are never indexed by id in the source, so their mutable attributes
  (`author`, `question`) are keyed by the answer's position in `cv.answers`.
* `ScList` / `ScFrozenList` from the external `scalaps` library are embedded as
  `ScColl`: a list of items plus a frozen flag; `to_frozen_list` sets the flag.
* Python's `datetime` is embedded as a plain record of calendar fields.
* Fallible operations return `Except CvError`; a Python exception (KeyError on
  a dict lookup, `RuntimeError` on pickling a linked graph, the scalaps
  integrity errors) is an `Except.error`.
-/

namespace CareerVillage

/-- Error taxonomy: `keyError` is a Python `KeyError` on a mandatory dict
lookup, `duplicateKey`/`overlapError` are the scalaps index-integrity errors,
`stateError` is `RuntimeError` on saving a linked graph / appending to a
frozen collection. -/
inductive CvError where
  | keyError
  | duplicateKey
  | overlapError
  | stateError
deriving DecidableEq, Repr

/-- A scalaps collection: `frozen = false` is a mutable `ScList`,
`frozen = true` is an `ScFrozenList`. -/
structure ScColl (α : Type) where
  frozen : Bool
  items : List α
deriving DecidableEq, Repr

/-- The empty mutable `ScList()` every relationship collection starts as. -/
def ScColl.empty {α : Type} : ScColl α := ⟨false, []⟩

/-- Modelled from the spec: appending to a scalaps collection; a frozen
collection (`ScFrozenList`) refuses the append (spec §7: mutating a
relationship collection after sealing is a StateError). The scalaps library
itself is an external collaborator, not part of this repository. -/
def ScColl.append {α : Type} (c : ScColl α) (x : α) : Except CvError (ScColl α) :=
  if c.frozen then .error .stateError else .ok ⟨false, c.items ++ [x]⟩

/-- scalaps `to_frozen_list`: one-way transition to the frozen form, items kept. -/
def ScColl.to_frozen_list {α : Type} (c : ScColl α) : ScColl α := ⟨true, c.items⟩

/-- Pointwise update of an id-indexed map (mutation of one entity's attribute). -/
def upd {κ α : Type} [DecidableEq κ] (m : κ → α) (k : κ) (v : α) : κ → α :=
  fun i => if i = k then v else m i

/-- Association-list lookup, the embedding of a Python dict lookup. -/
def alookup {κ α : Type} [DecidableEq κ] (k : κ) : List (κ × α) → Option α
  | [] => none
  | (k', v) :: rest => if k = k' then some v else alookup k rest

/-- Modelled from the spec: scalaps `key_by` builds a uniqueness-checked
id → entity index (spec §4.2 `build_index`; DuplicateKeyError on a duplicate
key). The scalaps library is an external collaborator. -/
def key_by {κ α : Type} [DecidableEq κ] (l : List α) (key : α → κ) :
    Except CvError (List (κ × α)) :=
  match l with
  | [] => .ok []
  | x :: xs => do
      let rest ← key_by xs key
      if (alookup (key x) rest).isSome then .error .duplicateKey
      else .ok ((key x, x) :: rest)

/-- Modelled from the spec: scalaps `union` with `error_on_overlap=True`
(spec §4.2 `merge_disjoint`; OverlapError when a key exists in both inputs).
The scalaps library is an external collaborator. -/
def union {κ α : Type} [DecidableEq κ] (a b : List (κ × α)) :
    Except CvError (List (κ × α)) :=
  if b.all (fun p => (alookup p.1 a).isNone) then .ok (a ++ b)
  else .error .overlapError

/-- Mandatory dict lookup `m[k]`: Python raises `KeyError` when absent. -/
def dictGetE {κ α : Type} [DecidableEq κ] (m : List (κ × α)) (k : κ) :
    Except CvError α :=
  match alookup k m with
  | some v => .ok v
  | none => .error .keyError

/-- Embedding of Python `datetime` (produced by `quick_parse_datetime`). -/
structure DateTime where
  year : Nat
  month : Nat
  day : Nat
  hour : Nat
  minute : Nat
  second : Nat
deriving DecidableEq, Repr

/-- Scalar fields of `Tag` (its `users`/`questions` collections live in `CV`). -/
structure Tag where
  tags_id : Int
  name : String
deriving DecidableEq, Repr

/-- Scalar fields of `Group`. -/
structure Group where
  groups_id : String
  group_type : String
deriving DecidableEq, Repr

/-- Scalar fields of `Student` (`user_id` is `students_id`). -/
structure Student where
  students_id : String
  location : Option String
  date_joined : DateTime
deriving DecidableEq, Repr

/-- Scalar fields of `Professional`. -/
structure Professional where
  professionals_id : String
  location : Option String
  industry : Option String
  headline : Option String
  date_joined : DateTime
deriving DecidableEq, Repr

/-- Scalar fields of `Question`. -/
structure Question where
  questions_id : String
  author_id : String
  date_added : DateTime
  title : String
  body : String
deriving DecidableEq, Repr

/-- Scalar fields of `Answer`. -/
structure Answer where
  answers_id : String
  author_id : String
  question_id : String
  date_added : DateTime
  body : String
deriving DecidableEq, Repr

/-- Scalar fields of `Email`. -/
structure Email where
  emails_id : String
  recipient_id : String
  date_sent : DateTime
  frequency_level : String
deriving DecidableEq, Repr

/-- A value of the merged user index: a `Student` or a `Professional`. -/
inductive User where
  | student : Student → User
  | professional : Professional → User
deriving DecidableEq, Repr

/-- The `user_id` attribute shared by both person classes. -/
def User.user_id : User → String
  | .student s => s.students_id
  | .professional p => p.professionals_id

/-- One row of `tag_users.csv`. -/
structure TagUserRow where
  tag_users_tag_id : Int
  tag_users_user_id : String
deriving DecidableEq, Repr

/-- One row of `group_memberships.csv`. -/
structure GroupMembershipRow where
  group_memberships_group_id : String
  group_memberships_user_id : String
deriving DecidableEq, Repr

/-- One row of `school_memberships.csv`. -/
structure SchoolMembershipRow where
  school_memberships_school_id : Int
  school_memberships_user_id : String
deriving DecidableEq, Repr

/-- One row of `tag_questions.csv`. -/
structure TagQuestionRow where
  tag_questions_tag_id : Int
  tag_questions_question_id : String
deriving DecidableEq, Repr

/-- One row of `matches.csv`. -/
structure MatchRow where
  matches_email_id : String
  matches_question_id : String
deriving DecidableEq, Repr

/-- The join tables `CareerVillage.link` reads from `directory_path`. -/
structure JoinTables where
  tag_users : List TagUserRow
  group_memberships : List GroupMembershipRow
  school_memberships : List SchoolMembershipRow
  tag_questions : List TagQuestionRow
  «matches» : List MatchRow
deriving Repr

/-- The `CareerVillage` graph. Entity lists hold the scalar records; the
id-indexed maps hold each entity's mutable relationship collections and
single-valued references (see the module docstring). `schools` is the list of
synthesized school ids (`schools_by_id.values()`), populated by `link`. -/
structure CV where
  tags : List Tag
  groups : List Group
  students : List Student
  professionals : List Professional
  questions : List Question
  answers : List Answer
  emails : List Email
  schools : List Int
  linked : Bool
  tagUsers : Int → ScColl String
  tagQuestionsColl : Int → ScColl String
  groupUsers : String → ScColl String
  schoolUsers : Int → ScColl String
  userTags : String → ScColl Int
  userGroups : String → ScColl String
  userSchools : String → ScColl Int
  userQuestions : String → ScColl String
  userAnswers : String → ScColl Nat
  profEmails : String → ScColl String
  questionTags : String → ScColl Int
  questionEmails : String → ScColl String
  questionAnswers : String → ScColl Nat
  emailQuestions : String → ScColl String
  questionAuthor : String → Option String
  answerAuthor : Nat → Option String
  answerQuestion : Nat → Option String
  emailRecipient : String → Option String

/-- `CareerVillage.__init__` as reached from `load_raw`: entity collections as
loaded, every relationship collection an empty mutable `ScList`, every
single-valued reference the class-level default `None`, `linked = False`. -/
def CV.load_raw (tags : List Tag) (groups : List Group) (students : List Student)
    (professionals : List Professional) (questions : List Question)
    (answers : List Answer) (emails : List Email) : CV where
  tags := tags
  groups := groups
  students := students
  professionals := professionals
  questions := questions
  answers := answers
  emails := emails
  schools := []
  linked := false
  tagUsers := fun _ => ScColl.empty
  tagQuestionsColl := fun _ => ScColl.empty
  groupUsers := fun _ => ScColl.empty
  schoolUsers := fun _ => ScColl.empty
  userTags := fun _ => ScColl.empty
  userGroups := fun _ => ScColl.empty
  userSchools := fun _ => ScColl.empty
  userQuestions := fun _ => ScColl.empty
  userAnswers := fun _ => ScColl.empty
  profEmails := fun _ => ScColl.empty
  questionTags := fun _ => ScColl.empty
  questionEmails := fun _ => ScColl.empty
  questionAnswers := fun _ => ScColl.empty
  emailQuestions := fun _ => ScColl.empty
  questionAuthor := fun _ => none
  answerAuthor := fun _ => none
  answerQuestion := fun _ => none
  emailRecipient := fun _ => none

/-- Lines 401–403: build `students_by_id`, `professionals_by_id` and the merged
`users_by_id = students_by_id.union(professionals_by_id, error_on_overlap=True)`. -/
def usersIndex (cv : CV) : Except CvError (List (String × User)) := do
  let students_by_id ← key_by cv.students Student.students_id
  let professionals_by_id ← key_by cv.professionals Professional.professionals_id
  union (students_by_id.map fun p => (p.1, User.student p.2))
    (professionals_by_id.map fun p => (p.1, User.professional p.2))

/-- The shared shape of the membership/association passes (lines 405–419,
434–440, 465–471): for each join row look both ids up in their indexes
(`KeyError` aborts on a dangling reference) and append each entity to the
other's collection. -/
def joinPass {κ₁ κ₂ : Type} {α β : Type} [DecidableEq κ₁] [DecidableEq κ₂]
    (idx1 : List (κ₁ × α)) (idx2 : List (κ₂ × β)) :
    List (κ₁ × κ₂) → (κ₁ → ScColl κ₂) → (κ₂ → ScColl κ₁) →
    Except CvError ((κ₁ → ScColl κ₂) × (κ₂ → ScColl κ₁))
  | [], m1, m2 => .ok (m1, m2)
  | (k1, k2) :: rest, m1, m2 => do
      let _ ← dictGetE idx1 k1
      let _ ← dictGetE idx2 k2
      let c1 ← (m1 k1).append k2
      let c2 ← (m2 k2).append k1
      joinPass idx1 idx2 rest (upd m1 k1 c1) (upd m2 k2 c2)

/-- Lines 421–432: the school-membership pass. A `School` is created lazily on
the first occurrence of a school id and recorded in the `schools_by_id` side
table (here: the list of school ids in insertion order); the user must resolve
(`KeyError` otherwise); both sides are appended. -/
def schoolsPass (users_by_id : List (String × User)) :
    List SchoolMembershipRow → List Int → (Int → ScColl String) →
    (String → ScColl Int) →
    Except CvError (List Int × (Int → ScColl String) × (String → ScColl Int))
  | [], sbi, su, us => .ok (sbi, su, us)
  | r :: rest, sbi, su, us => do
      let _ ← dictGetE users_by_id r.school_memberships_user_id
      let c1 ← (su r.school_memberships_school_id).append
        r.school_memberships_user_id
      let c2 ← (us r.school_memberships_user_id).append
        r.school_memberships_school_id
      schoolsPass users_by_id rest
        (if r.school_memberships_school_id ∈ sbi then sbi
          else sbi ++ [r.school_memberships_school_id])
        (upd su r.school_memberships_school_id c1)
        (upd us r.school_memberships_user_id c2)

/-- Lines 442–447: `question.author = users_by_id.get(question.author_id, None)`;
a missing author is tolerated (reference left `None`); when found, the question
is appended to the author's `questions` collection. -/
def questionAuthorPass (users_by_id : List (String × User)) :
    List Question → (String → Option String) → (String → ScColl String) →
    Except CvError ((String → Option String) × (String → ScColl String))
  | [], qa, uq => .ok (qa, uq)
  | q :: rest, qa, uq =>
      match alookup q.author_id users_by_id with
      | none => questionAuthorPass users_by_id rest (upd qa q.questions_id none) uq
      | some _ => do
          let c ← (uq q.author_id).append q.questions_id
          questionAuthorPass users_by_id rest
            (upd qa q.questions_id (some q.author_id)) (upd uq q.author_id c)

/-- Lines 449–457: per answer (keyed by its position `i`), resolve the author
null-tolerantly (append to the author's `answers` when found), then resolve the
question with a mandatory lookup (`KeyError` if `question_id` is absent from
`questions_by_id`) and append the answer to the question's `answers`. -/
def answersPass (users_by_id : List (String × User))
    (questions_by_id : List (String × Question)) :
    List Answer → Nat → (Nat → Option String) → (String → ScColl Nat) →
    (Nat → Option String) → (String → ScColl Nat) →
    Except CvError ((Nat → Option String) × (String → ScColl Nat) ×
      (Nat → Option String) × (String → ScColl Nat))
  | [], _, aa, ua, aq, qans => .ok (aa, ua, aq, qans)
  | a :: rest, i, aa, ua, aq, qans => do
      let (aa', ua') ←
        (match alookup a.author_id users_by_id with
          | none => Except.ok (upd aa i none, ua)
          | some _ => do
              let c ← (ua a.author_id).append i
              Except.ok (upd aa i (some a.author_id), upd ua a.author_id c))
      let _ ← dictGetE questions_by_id a.question_id
      let c2 ← (qans a.question_id).append i
      answersPass users_by_id questions_by_id rest (i + 1) aa' ua'
        (upd aq i (some a.question_id)) (upd qans a.question_id c2)

/-- Lines 459–463: every email's `recipient_id` must resolve in
`professionals_by_id` (`KeyError` otherwise); the email is appended to the
recipient's `emails` and the email's `recipient` reference is set. -/
def emailsPass (professionals_by_id : List (String × Professional)) :
    List Email → (String → ScColl String) → (String → Option String) →
    Except CvError ((String → ScColl String) × (String → Option String))
  | [], pe, er => .ok (pe, er)
  | e :: rest, pe, er => do
      let _ ← dictGetE professionals_by_id e.recipient_id
      let c ← (pe e.recipient_id).append e.emails_id
      emailsPass professionals_by_id rest (upd pe e.recipient_id c)
        (upd er e.emails_id (some e.recipient_id))

/-- `freeze_list` restricted to one id-indexed map: apply `to_frozen_list` to
the collection of each listed entity id. -/
def freezeKeys {κ α : Type} [DecidableEq κ] :
    (κ → ScColl α) → List κ → (κ → ScColl α)
  | m, [] => m
  | m, k :: rest => freezeKeys (upd m k (m k).to_frozen_list) rest

/-- Lines 473–481: the freeze block at the end of `link`. Every entity's
`_freeze` converts that entity's relationship collections to frozen lists
(`Tag`: users, questions; `Group`: users; `School`: users; `BasePerson`: tags,
groups, schools, questions, answers; `Professional` additionally emails;
`Question`: tags, emails, answers; `Answer`: nothing; `Email`: questions), and
the synthesized school list becomes `self.schools`. -/
def sealGraph (cv : CV) (schoolIds : List Int)
    (tu : Int → ScColl String) (ut : String → ScColl Int)
    (gu : String → ScColl String) (ug : String → ScColl String)
    (su : Int → ScColl String) (us : String → ScColl Int)
    (tq : Int → ScColl String) (qt : String → ScColl Int)
    (qauth : String → Option String) (uq : String → ScColl String)
    (aa : Nat → Option String) (ua : String → ScColl Nat)
    (aq : Nat → Option String) (qans : String → ScColl Nat)
    (pe : String → ScColl String) (er : String → Option String)
    (eqs : String → ScColl String) (qes : String → ScColl String) : CV :=
  { cv with
    linked := true
    schools := schoolIds
    tagUsers := freezeKeys tu (cv.tags.map Tag.tags_id)
    tagQuestionsColl := freezeKeys tq (cv.tags.map Tag.tags_id)
    groupUsers := freezeKeys gu (cv.groups.map Group.groups_id)
    schoolUsers := freezeKeys su schoolIds
    userTags := freezeKeys (freezeKeys ut (cv.students.map Student.students_id))
      (cv.professionals.map Professional.professionals_id)
    userGroups := freezeKeys
      (freezeKeys ug (cv.students.map Student.students_id))
      (cv.professionals.map Professional.professionals_id)
    userSchools := freezeKeys
      (freezeKeys us (cv.students.map Student.students_id))
      (cv.professionals.map Professional.professionals_id)
    userQuestions := freezeKeys
      (freezeKeys uq (cv.students.map Student.students_id))
      (cv.professionals.map Professional.professionals_id)
    userAnswers := freezeKeys
      (freezeKeys ua (cv.students.map Student.students_id))
      (cv.professionals.map Professional.professionals_id)
    profEmails := freezeKeys pe
      (cv.professionals.map Professional.professionals_id)
    questionTags := freezeKeys qt (cv.questions.map Question.questions_id)
    questionEmails := freezeKeys qes (cv.questions.map Question.questions_id)
    questionAnswers := freezeKeys qans (cv.questions.map Question.questions_id)
    emailQuestions := freezeKeys eqs (cv.emails.map Email.emails_id)
    questionAuthor := qauth
    answerAuthor := aa
    answerQuestion := aq
    emailRecipient := er }

/-- The body of `CareerVillage.link` after the linked-flag guard (lines
399–481), in the source's pass order. -/
def linkCore (cv : CV) (jt : JoinTables) : Except CvError CV := do
  let users_by_id ← usersIndex cv
  let professionals_by_id ← key_by cv.professionals Professional.professionals_id
  let tags_by_id ← key_by cv.tags Tag.tags_id
  let (tu, ut) ← joinPass tags_by_id users_by_id
    (jt.tag_users.map fun r => (r.tag_users_tag_id, r.tag_users_user_id))
    cv.tagUsers cv.userTags
  let groups_by_id ← key_by cv.groups Group.groups_id
  let (gu, ug) ← joinPass groups_by_id users_by_id
    (jt.group_memberships.map fun r =>
      (r.group_memberships_group_id, r.group_memberships_user_id))
    cv.groupUsers cv.userGroups
  let (schoolIds, su, us) ← schoolsPass users_by_id jt.school_memberships []
    cv.schoolUsers cv.userSchools
  let questions_by_id ← key_by cv.questions Question.questions_id
  let (tq, qt) ← joinPass tags_by_id questions_by_id
    (jt.tag_questions.map fun r =>
      (r.tag_questions_tag_id, r.tag_questions_question_id))
    cv.tagQuestionsColl cv.questionTags
  let (qauth, uq) ← questionAuthorPass users_by_id cv.questions
    cv.questionAuthor cv.userQuestions
  let (aa, ua, aq, qans) ← answersPass users_by_id questions_by_id cv.answers 0
    cv.answerAuthor cv.userAnswers cv.answerQuestion cv.questionAnswers
  let (pe, er) ← emailsPass professionals_by_id cv.emails
    cv.profEmails cv.emailRecipient
  let emails_by_id ← key_by cv.emails Email.emails_id
  let (eqs, qes) ← joinPass emails_by_id questions_by_id
    (jt.«matches».map fun r => (r.matches_email_id, r.matches_question_id))
    cv.emailQuestions cv.questionEmails
  .ok (sealGraph cv schoolIds tu ut gu ug su us tq qt qauth uq aa ua aq qans
    pe er eqs qes)

/-- `CareerVillage.link` (lines 396–481): a silent early return when already
linked, otherwise run every linking pass. The source sets the `linked` flag
up front (line 399); no pass ever reads it, so the embedding records the set
flag in the final sealed graph (`sealGraph`), which leaves every successful
or failing run observationally identical. -/
def CV.link (cv : CV) (jt : JoinTables) : Except CvError CV :=
  if cv.linked then .ok cv
  else linkCore cv jt

/-- `CareerVillage.save` (lines 382–386): raise `RuntimeError` on a linked
graph, otherwise pickle the unlinked graph (the write modelled as success). -/
def CV.save (cv : CV) : Except CvError Unit :=
  if cv.linked then .error .stateError else .ok ()

/-- Specification-side characterization (for comparison with the school side
table): the distinct elements of a list in order of first occurrence, appended
to an accumulator. -/
def firstOccurrences : List Int → List Int → List Int
  | [], acc => acc
  | s :: rest, acc => firstOccurrences rest (if s ∈ acc then acc else acc ++ [s])

/-! ### Basic lemmas about the primitives -/

theorem upd_same {κ α : Type} [DecidableEq κ] (m : κ → α) (k : κ) (v : α) :
    upd m k v k = v := by
  simp [upd]

theorem upd_ne {κ α : Type} [DecidableEq κ] (m : κ → α) {k i : κ} (v : α)
    (h : i ≠ k) : upd m k v i = m i := by
  simp [upd, h]

theorem append_ok {α : Type} {c c' : ScColl α} {x : α}
    (h : c.append x = .ok c') :
    c.frozen = false ∧ c' = ⟨false, c.items ++ [x]⟩ := by
  unfold ScColl.append at h
  cases hf : c.frozen with
  | true => rw [hf] at h; simp at h
  | false =>
      rw [hf] at h
      simp only [Bool.false_eq_true, if_false, Except.ok.injEq] at h
      exact ⟨rfl, h.symm⟩

theorem append_frozen {α : Type} (c : ScColl α) (x : α)
    (h : c.frozen = true) : c.append x = .error .stateError := by
  unfold ScColl.append
  rw [h]
  simp

theorem bind_ok {ε α β : Type} {x : Except ε α} {f : α → Except ε β} {b : β}
    (h : x >>= f = .ok b) : ∃ a, x = .ok a ∧ f a = .ok b := by
  cases x with
  | error e =>
      simp only [Bind.bind, Except.bind] at h
      exact Except.noConfusion h
  | ok a =>
      simp only [Bind.bind, Except.bind] at h
      exact ⟨a, rfl, h⟩

theorem alookup_eq_none {κ α : Type} [DecidableEq κ] {k : κ} {l : List (κ × α)} :
    alookup k l = none ↔ k ∉ l.map Prod.fst := by
  induction l with
  | nil => simp [alookup]
  | cons p rest ih =>
      obtain ⟨k', v⟩ := p
      by_cases hk : k = k' <;> simp [alookup, hk, ih]

theorem alookup_isSome {κ α : Type} [DecidableEq κ] {k : κ} {l : List (κ × α)} :
    (alookup k l).isSome = true ↔ k ∈ l.map Prod.fst := by
  cases ha : alookup k l with
  | none => simpa using alookup_eq_none.mp ha
  | some v =>
      simp only [Option.isSome_some, true_iff]
      by_contra hk
      rw [alookup_eq_none.mpr hk] at ha
      exact Option.noConfusion ha

theorem alookup_map {κ α β : Type} [DecidableEq κ] (g : α → β) (k : κ)
    (l : List (κ × α)) :
    alookup k (l.map fun p => (p.1, g p.2)) = (alookup k l).map g := by
  induction l with
  | nil => simp [alookup]
  | cons p rest ih =>
      obtain ⟨k', v⟩ := p
      by_cases hk : k = k' <;> simp [alookup, hk, ih]

theorem alookup_append {κ α : Type} [DecidableEq κ] (k : κ) (a b : List (κ × α)) :
    alookup k (a ++ b) =
      match alookup k a with
      | some v => some v
      | none => alookup k b := by
  induction a with
  | nil => simp [alookup]
  | cons p rest ih =>
      obtain ⟨k', v⟩ := p
      by_cases hk : k = k' <;> simp [alookup, hk, ih]

theorem key_by_ok {κ α : Type} [DecidableEq κ] {l : List α} {f : α → κ}
    {m : List (κ × α)} (h : key_by l f = .ok m) :
    m = l.map (fun x => (f x, x)) ∧ (l.map f).Nodup := by
  induction l generalizing m with
  | nil =>
      unfold key_by at h
      simp only [Except.ok.injEq] at h
      simp [h.symm]
  | cons x xs ih =>
      unfold key_by at h
      obtain ⟨rest, hrest, h⟩ := bind_ok h
      obtain ⟨hm, hnd⟩ := ih hrest
      by_cases hd : (alookup (f x) rest).isSome = true
      · rw [if_pos hd] at h
        exact Except.noConfusion h
      · rw [if_neg hd] at h
        simp only [Except.ok.injEq] at h
        have hkeys : rest.map Prod.fst = xs.map f := by
          rw [hm, List.map_map]
          rfl
        have hnotmem : f x ∉ xs.map f := by
          intro hc
          exact hd (alookup_isSome.mpr (hkeys ▸ hc))
        constructor
        · rw [← h, hm]
          rfl
        · rw [List.map_cons, List.nodup_cons]
          exact ⟨hnotmem, hnd⟩

theorem key_by_ok_of_nodup {κ α : Type} [DecidableEq κ] {l : List α} {f : α → κ}
    (h : (l.map f).Nodup) : key_by l f = .ok (l.map fun x => (f x, x)) := by
  induction l with
  | nil => rfl
  | cons x xs ih =>
      simp only [List.map_cons, List.nodup_cons] at h
      unfold key_by
      rw [ih h.2]
      have hkeys : (xs.map fun x => (f x, x)).map Prod.fst = xs.map f := by
        rw [List.map_map]
        rfl
      have : alookup (f x) (xs.map fun x => (f x, x)) = none :=
        alookup_eq_none.mpr (by rw [hkeys]; exact h.1)
      simp [Bind.bind, Except.bind, this]

theorem union_ok {κ α : Type} [DecidableEq κ] {a b m : List (κ × α)}
    (h : union a b = .ok m) :
    m = a ++ b ∧ ∀ p ∈ b, alookup p.1 a = none := by
  unfold union at h
  by_cases hall : b.all (fun p => (alookup p.1 a).isNone) = true
  · rw [if_pos hall] at h
    simp only [Except.ok.injEq] at h
    refine ⟨h.symm, fun p hp => ?_⟩
    have := List.all_eq_true.mp hall p hp
    simpa [Option.isNone_iff_eq_none] using this
  · rw [if_neg hall] at h
    exact Except.noConfusion h

theorem union_error {κ α : Type} [DecidableEq κ] {a b : List (κ × α)}
    (p : κ × α) (hp : p ∈ b) (h : (alookup p.1 a).isSome = true) :
    union a b = .error .overlapError := by
  unfold union
  have : ¬ (b.all (fun p => (alookup p.1 a).isNone) = true) := by
    intro hall
    have := List.all_eq_true.mp hall p hp
    rw [Option.isNone_iff_eq_none] at this
    rw [this] at h
    exact Bool.noConfusion h
  simp [this]

theorem union_ok_of_disjoint {κ α : Type} [DecidableEq κ] {a b : List (κ × α)}
    (h : ∀ p ∈ b, alookup p.1 a = none) : union a b = .ok (a ++ b) := by
  unfold union
  have : b.all (fun p => (alookup p.1 a).isNone) = true :=
    List.all_eq_true.mpr fun p hp => by simp [h p hp]
  simp [this]

theorem dictGetE_ok {κ α : Type} [DecidableEq κ] {m : List (κ × α)} {k : κ}
    {v : α} (h : dictGetE m k = .ok v) : alookup k m = some v := by
  unfold dictGetE at h
  cases ha : alookup k m with
  | none => rw [ha] at h; exact Except.noConfusion h
  | some w =>
      rw [ha] at h
      simp only [Except.ok.injEq] at h
      rw [h]

theorem freezeKeys_items {κ α : Type} [DecidableEq κ] (ks : List κ) :
    ∀ (m : κ → ScColl α) (k : κ), ((freezeKeys m ks) k).items = (m k).items := by
  induction ks with
  | nil => intro m k; rfl
  | cons k' rest ih =>
      intro m k
      unfold freezeKeys
      rw [ih]
      by_cases hk : k = k' <;> simp [upd, hk, ScColl.to_frozen_list]

theorem freezeKeys_frozen_mono {κ α : Type} [DecidableEq κ] (ks : List κ) :
    ∀ (m : κ → ScColl α) (k : κ), (m k).frozen = true →
      ((freezeKeys m ks) k).frozen = true := by
  induction ks with
  | nil => intro m k h; exact h
  | cons k' rest ih =>
      intro m k h
      unfold freezeKeys
      apply ih
      by_cases hk : k = k' <;> simp [upd, hk, ScColl.to_frozen_list, h]

theorem freezeKeys_frozen_of_mem {κ α : Type} [DecidableEq κ] {ks : List κ} :
    ∀ (m : κ → ScColl α) {k : κ}, k ∈ ks →
      ((freezeKeys m ks) k).frozen = true := by
  induction ks with
  | nil => intro m k h; exact absurd h (List.not_mem_nil k)
  | cons k' rest ih =>
      intro m k h
      unfold freezeKeys
      rcases List.mem_cons.mp h with hk | hk
      · apply freezeKeys_frozen_mono
        simp [upd, hk, ScColl.to_frozen_list]
      · exact ih _ hk

/-! ### Bidirectional-closure lemmas for the append-both-sides passes -/

theorem closure_step {κ₁ κ₂ : Type} [DecidableEq κ₁] [DecidableEq κ₂]
    {m1 : κ₁ → ScColl κ₂} {m2 : κ₂ → ScColl κ₁}
    (hinv : ∀ a b, b ∈ (m1 a).items ↔ a ∈ (m2 b).items)
    (k1 : κ₁) (k2 : κ₂) {c1 : ScColl κ₂} {c2 : ScColl κ₁}
    (h1 : c1.items = (m1 k1).items ++ [k2])
    (h2 : c2.items = (m2 k2).items ++ [k1]) :
    ∀ a b, b ∈ ((upd m1 k1 c1) a).items ↔ a ∈ ((upd m2 k2 c2) b).items := by
  intro a b
  by_cases ha : a = k1 <;> by_cases hb : b = k2
  · subst ha; subst hb
    rw [upd_same, upd_same, h1, h2]
    simp
  · subst ha
    rw [upd_same, upd_ne m2 _ hb, h1]
    simp only [List.mem_append, List.mem_singleton]
    rw [hinv a b]
    simp [hb]
  · subst hb
    rw [upd_ne m1 _ ha, upd_same, h2]
    simp only [List.mem_append, List.mem_singleton]
    rw [hinv a b]
    simp [ha]
  · rw [upd_ne m1 _ ha, upd_ne m2 _ hb]
    exact hinv a b

theorem joinPass_closure {κ₁ κ₂ α β : Type} [DecidableEq κ₁] [DecidableEq κ₂]
    {idx1 : List (κ₁ × α)} {idx2 : List (κ₂ × β)} :
    ∀ (rows : List (κ₁ × κ₂)) (m1 : κ₁ → ScColl κ₂) (m2 : κ₂ → ScColl κ₁)
      {n1 : κ₁ → ScColl κ₂} {n2 : κ₂ → ScColl κ₁},
      joinPass idx1 idx2 rows m1 m2 = .ok (n1, n2) →
      (∀ a b, b ∈ (m1 a).items ↔ a ∈ (m2 b).items) →
      ∀ a b, b ∈ (n1 a).items ↔ a ∈ (n2 b).items := by
  intro rows
  induction rows with
  | nil =>
      intro m1 m2 n1 n2 h hinv
      unfold joinPass at h
      simp only [Except.ok.injEq, Prod.mk.injEq] at h
      rw [← h.1, ← h.2]
      exact hinv
  | cons p rest ih =>
      obtain ⟨k1, k2⟩ := p
      intro m1 m2 n1 n2 h hinv
      unfold joinPass at h
      obtain ⟨v1, hv1, h⟩ := bind_ok h
      obtain ⟨v2, hv2, h⟩ := bind_ok h
      obtain ⟨c1, hc1, h⟩ := bind_ok h
      obtain ⟨c2, hc2, h⟩ := bind_ok h
      obtain ⟨hf1, he1⟩ := append_ok hc1
      obtain ⟨hf2, he2⟩ := append_ok hc2
      exact ih _ _ h (closure_step hinv k1 k2 (by rw [he1]) (by rw [he2]))

theorem schoolsPass_closure {users_by_id : List (String × User)} :
    ∀ (rows : List SchoolMembershipRow) (sbi : List Int)
      (su : Int → ScColl String) (us : String → ScColl Int)
      {sbi' : List Int} {su' : Int → ScColl String} {us' : String → ScColl Int},
      schoolsPass users_by_id rows sbi su us = .ok (sbi', su', us') →
      (∀ a b, b ∈ (su a).items ↔ a ∈ (us b).items) →
      ∀ a b, b ∈ (su' a).items ↔ a ∈ (us' b).items := by
  intro rows
  induction rows with
  | nil =>
      intro sbi su us sbi' su' us' h hinv
      unfold schoolsPass at h
      simp only [Except.ok.injEq, Prod.mk.injEq] at h
      rw [← h.2.1, ← h.2.2]
      exact hinv
  | cons r rest ih =>
      intro sbi su us sbi' su' us' h hinv
      unfold schoolsPass at h
      obtain ⟨v1, hv1, h⟩ := bind_ok h
      obtain ⟨c1, hc1, h⟩ := bind_ok h
      obtain ⟨c2, hc2, h⟩ := bind_ok h
      obtain ⟨hf1, he1⟩ := append_ok hc1
      obtain ⟨hf2, he2⟩ := append_ok hc2
      exact ih _ _ _ h (closure_step hinv _ _ (by rw [he1]) (by rw [he2]))

/-! ### The school side table -/

theorem schoolsPass_sideTable {users_by_id : List (String × User)} :
    ∀ (rows : List SchoolMembershipRow) (sbi : List Int)
      (su : Int → ScColl String) (us : String → ScColl Int)
      {sbi' : List Int} {su' : Int → ScColl String} {us' : String → ScColl Int},
      schoolsPass users_by_id rows sbi su us = .ok (sbi', su', us') →
      sbi' = firstOccurrences
        (rows.map SchoolMembershipRow.school_memberships_school_id) sbi := by
  intro rows
  induction rows with
  | nil =>
      intro sbi su us sbi' su' us' h
      unfold schoolsPass at h
      simp only [Except.ok.injEq, Prod.mk.injEq] at h
      rw [← h.1]
      rfl
  | cons r rest ih =>
      intro sbi su us sbi' su' us' h
      unfold schoolsPass at h
      obtain ⟨v1, hv1, h⟩ := bind_ok h
      obtain ⟨c1, hc1, h⟩ := bind_ok h
      obtain ⟨c2, hc2, h⟩ := bind_ok h
      rw [List.map_cons]
      unfold firstOccurrences
      exact ih _ _ _ h

theorem firstOccurrences_mem :
    ∀ (rows acc : List Int) (s : Int),
      s ∈ firstOccurrences rows acc ↔ s ∈ acc ∨ s ∈ rows := by
  intro rows
  induction rows with
  | nil => intro acc s; simp [firstOccurrences]
  | cons x rest ih =>
      intro acc s
      unfold firstOccurrences
      rw [ih]
      have hstep : s ∈ (if x ∈ acc then acc else acc ++ [x]) ↔ s ∈ acc ∨ s = x := by
        by_cases hx : x ∈ acc
        · simp only [if_pos hx]
          constructor
          · exact Or.inl
          · rintro (hs | rfl)
            · exact hs
            · exact hx
        · simp [if_neg hx]
      rw [hstep]
      simp [List.mem_cons]
      tauto

theorem firstOccurrences_nodup :
    ∀ (rows acc : List Int), acc.Nodup → (firstOccurrences rows acc).Nodup := by
  intro rows
  induction rows with
  | nil => intro acc h; exact h
  | cons x rest ih =>
      intro acc h
      unfold firstOccurrences
      apply ih
      by_cases hx : x ∈ acc
      · simpa [if_pos hx] using h
      · rw [if_neg hx]
        rw [List.nodup_append]
        refine ⟨h, List.nodup_singleton x, ?_⟩
        intro a ha hax
        rw [List.mem_singleton] at hax
        subst hax
        exact hx ha

/-! ### The question-author pass -/

theorem questionAuthorPass_frame {ubi : List (String × User)} :
    ∀ (qs : List Question) (qa : String → Option String)
      (uq : String → ScColl String) {qa' : String → Option String}
      {uq' : String → ScColl String},
      questionAuthorPass ubi qs qa uq = .ok (qa', uq') →
      ∀ k, k ∉ qs.map Question.questions_id → qa' k = qa k := by
  intro qs
  induction qs with
  | nil =>
      intro qa uq qa' uq' h k _
      unfold questionAuthorPass at h
      simp only [Except.ok.injEq, Prod.mk.injEq] at h
      rw [← h.1]
  | cons q rest ih =>
      intro qa uq qa' uq' h k hk
      simp only [List.map_cons, List.mem_cons, not_or] at hk
      unfold questionAuthorPass at h
      cases hau : alookup q.author_id ubi with
      | none =>
          rw [hau] at h
          rw [ih _ _ h k hk.2, upd_ne qa _ hk.1]
      | some u =>
          rw [hau] at h
          obtain ⟨c, hc, h⟩ := bind_ok h
          rw [ih _ _ h k hk.2, upd_ne qa _ hk.1]

theorem questionAuthorPass_mono {ubi : List (String × User)} :
    ∀ (qs : List Question) (qa : String → Option String)
      (uq : String → ScColl String) {qa' : String → Option String}
      {uq' : String → ScColl String},
      questionAuthorPass ubi qs qa uq = .ok (qa', uq') →
      ∀ u x, x ∈ (uq u).items → x ∈ (uq' u).items := by
  intro qs
  induction qs with
  | nil =>
      intro qa uq qa' uq' h u x hx
      unfold questionAuthorPass at h
      simp only [Except.ok.injEq, Prod.mk.injEq] at h
      rw [← h.2]
      exact hx
  | cons q rest ih =>
      intro qa uq qa' uq' h u x hx
      unfold questionAuthorPass at h
      cases hau : alookup q.author_id ubi with
      | none =>
          rw [hau] at h
          exact ih _ _ h u x hx
      | some w =>
          rw [hau] at h
          obtain ⟨c, hc, h⟩ := bind_ok h
          obtain ⟨hf, he⟩ := append_ok hc
          refine ih _ _ h u x ?_
          by_cases hu : u = q.author_id
          · subst hu
            rw [upd_same, he]
            simp only [List.mem_append]
            exact Or.inl hx
          · rw [upd_ne uq _ hu]
            exact hx

theorem questionAuthorPass_spec {ubi : List (String × User)} :
    ∀ (qs : List Question) (qa : String → Option String)
      (uq : String → ScColl String) {qa' : String → Option String}
      {uq' : String → ScColl String},
      questionAuthorPass ubi qs qa uq = .ok (qa', uq') →
      (qs.map Question.questions_id).Nodup →
      ∀ q ∈ qs,
        (alookup q.author_id ubi = none → qa' q.questions_id = none) ∧
        (∀ u, alookup q.author_id ubi = some u →
          qa' q.questions_id = some q.author_id ∧
          q.questions_id ∈ (uq' q.author_id).items) := by
  intro qs
  induction qs with
  | nil =>
      intro qa uq qa' uq' _ _ q hq
      exact absurd hq (List.not_mem_nil q)
  | cons q0 rest ih =>
      intro qa uq qa' uq' h hnd q hq
      have hnd' : (rest.map Question.questions_id).Nodup := by
        rw [List.map_cons, List.nodup_cons] at hnd
        exact hnd.2
      have hq0 : q0.questions_id ∉ rest.map Question.questions_id := by
        rw [List.map_cons, List.nodup_cons] at hnd
        exact hnd.1
      rcases List.mem_cons.mp hq with rfl | hq'
      · unfold questionAuthorPass at h
        cases hau : alookup q.author_id ubi with
        | none =>
            rw [hau] at h
            constructor
            · intro _
              rw [questionAuthorPass_frame _ _ _ h _ hq0, upd_same]
            · intro u hu
              exact Option.noConfusion hu
        | some w =>
            rw [hau] at h
            obtain ⟨c, hc, h⟩ := bind_ok h
            obtain ⟨hf, he⟩ := append_ok hc
            constructor
            · intro hnone
              exact Option.noConfusion hnone
            · intro u _
              constructor
              · rw [questionAuthorPass_frame _ _ _ h _ hq0, upd_same]
              · refine questionAuthorPass_mono _ _ _ h _ _ ?_
                rw [upd_same, he]
                simp
      · unfold questionAuthorPass at h
        cases hau : alookup q0.author_id ubi with
        | none =>
            rw [hau] at h
            exact ih _ _ h hnd' q hq'
        | some w =>
            rw [hau] at h
            obtain ⟨c, hc, h⟩ := bind_ok h
            exact ih _ _ h hnd' q hq'

theorem questionAuthorPass_total {ubi : List (String × User)} :
    ∀ (qs : List Question) (qa : String → Option String)
      (uq : String → ScColl String), (∀ u, (uq u).frozen = false) →
      ∃ r, questionAuthorPass ubi qs qa uq = .ok r := by
  intro qs
  induction qs with
  | nil => intro qa uq _; exact ⟨_, rfl⟩
  | cons q rest ih =>
      intro qa uq hmut
      unfold questionAuthorPass
      cases hau : alookup q.author_id ubi with
      | none => exact ih _ _ hmut
      | some w =>
          have happ : (uq q.author_id).append q.questions_id =
              .ok ⟨false, (uq q.author_id).items ++ [q.questions_id]⟩ := by
            unfold ScColl.append
            rw [hmut q.author_id]
            simp
          rw [happ]
          have hmut' : ∀ u, ((upd uq q.author_id
              ⟨false, (uq q.author_id).items ++ [q.questions_id]⟩) u).frozen = false := by
            intro u
            by_cases hu : u = q.author_id
            · subst hu; rw [upd_same]
            · rw [upd_ne uq _ hu]; exact hmut u
          obtain ⟨r, hr⟩ := ih (upd qa q.questions_id (some q.author_id)) _ hmut'
          exact ⟨r, by simpa [Bind.bind, Except.bind] using hr⟩

/-! ### The answers pass -/

theorem answersPass_cons {ubi : List (String × User)}
    {qbi : List (String × Question)} {a : Answer} {rest : List Answer} {i : Nat}
    {aa : Nat → Option String} {ua : String → ScColl Nat}
    {aq : Nat → Option String} {qans : String → ScColl Nat}
    {res : (Nat → Option String) × (String → ScColl Nat) ×
      (Nat → Option String) × (String → ScColl Nat)}
    (h : answersPass ubi qbi (a :: rest) i aa ua aq qans = .ok res) :
    ∃ (aa1 : Nat → Option String) (ua1 : String → ScColl Nat) (q : Question),
      ((alookup a.author_id ubi = none ∧ aa1 = upd aa i none ∧ ua1 = ua) ∨
       (∃ u, alookup a.author_id ubi = some u ∧
         (ua a.author_id).frozen = false ∧
         aa1 = upd aa i (some a.author_id) ∧
         ua1 = upd ua a.author_id ⟨false, (ua a.author_id).items ++ [i]⟩)) ∧
      dictGetE qbi a.question_id = .ok q ∧
      (qans a.question_id).frozen = false ∧
      answersPass ubi qbi rest (i + 1) aa1 ua1
        (upd aq i (some a.question_id))
        (upd qans a.question_id ⟨false, (qans a.question_id).items ++ [i]⟩)
        = .ok res := by
  unfold answersPass at h
  cases hau : alookup a.author_id ubi with
  | none =>
      rw [hau] at h
      obtain ⟨p, hp, h⟩ := bind_ok h
      simp only [Except.ok.injEq] at hp
      rw [← hp] at h
      obtain ⟨v, hv, h⟩ := bind_ok h
      obtain ⟨c2, hc2, h⟩ := bind_ok h
      obtain ⟨hfz, he2⟩ := append_ok hc2
      rw [he2] at h
      exact ⟨upd aa i none, ua, v, Or.inl ⟨rfl, rfl, rfl⟩, hv, hfz, h⟩
  | some u =>
      rw [hau] at h
      obtain ⟨p, hp, h⟩ := bind_ok h
      obtain ⟨c, hc, hp⟩ := bind_ok hp
      obtain ⟨hfa, hea⟩ := append_ok hc
      simp only [Except.ok.injEq] at hp
      rw [← hp, hea] at h
      obtain ⟨v, hv, h⟩ := bind_ok h
      obtain ⟨c2, hc2, h⟩ := bind_ok h
      obtain ⟨hfz, he2⟩ := append_ok hc2
      rw [he2] at h
      exact ⟨upd aa i (some a.author_id),
        upd ua a.author_id ⟨false, (ua a.author_id).items ++ [i]⟩, v,
        Or.inr ⟨u, rfl, hfa, rfl, rfl⟩, hv, hfz, h⟩

theorem answersPass_frame {ubi : List (String × User)}
    {qbi : List (String × Question)} :
    ∀ (rows : List Answer) (i : Nat) (aa : Nat → Option String)
      (ua : String → ScColl Nat) (aq : Nat → Option String)
      (qans : String → ScColl Nat) {aa' : Nat → Option String}
      {ua' : String → ScColl Nat} {aq' : Nat → Option String}
      {qans' : String → ScColl Nat},
      answersPass ubi qbi rows i aa ua aq qans = .ok (aa', ua', aq', qans') →
      ∀ j, j < i → aa' j = aa j ∧ aq' j = aq j := by
  intro rows
  induction rows with
  | nil =>
      intro i aa ua aq qans aa' ua' aq' qans' h j hj
      unfold answersPass at h
      simp only [Except.ok.injEq, Prod.mk.injEq] at h
      rw [← h.1, ← h.2.2.1]
      exact ⟨rfl, rfl⟩
  | cons a rest ih =>
      intro i aa ua aq qans aa' ua' aq' qans' h j hj
      obtain ⟨aa1, ua1, q, hstep, hq, hfz, h⟩ := answersPass_cons h
      obtain ⟨h1, h2⟩ := ih _ _ _ _ _ h j (Nat.lt_succ_of_lt hj)
      have hne : j ≠ i := Nat.ne_of_lt hj
      constructor
      · rw [h1]
        rcases hstep with ⟨_, haa1, _⟩ | ⟨u, _, _, haa1, _⟩ <;>
          rw [haa1, upd_ne aa _ hne]
      · rw [h2, upd_ne aq _ hne]

theorem answersPass_mono {ubi : List (String × User)}
    {qbi : List (String × Question)} :
    ∀ (rows : List Answer) (i : Nat) (aa : Nat → Option String)
      (ua : String → ScColl Nat) (aq : Nat → Option String)
      (qans : String → ScColl Nat) {aa' : Nat → Option String}
      {ua' : String → ScColl Nat} {aq' : Nat → Option String}
      {qans' : String → ScColl Nat},
      answersPass ubi qbi rows i aa ua aq qans = .ok (aa', ua', aq', qans') →
      (∀ u x, x ∈ (ua u).items → x ∈ (ua' u).items) ∧
      (∀ k x, x ∈ (qans k).items → x ∈ (qans' k).items) := by
  intro rows
  induction rows with
  | nil =>
      intro i aa ua aq qans aa' ua' aq' qans' h
      unfold answersPass at h
      simp only [Except.ok.injEq, Prod.mk.injEq] at h
      rw [← h.2.1, ← h.2.2.2]
      exact ⟨fun _ _ hx => hx, fun _ _ hx => hx⟩
  | cons a rest ih =>
      intro i aa ua aq qans aa' ua' aq' qans' h
      obtain ⟨aa1, ua1, q, hstep, hq, hfz, h⟩ := answersPass_cons h
      obtain ⟨m1, m2⟩ := ih _ _ _ _ _ h
      constructor
      · intro u x hx
        apply m1
        rcases hstep with ⟨_, _, hua1⟩ | ⟨w, _, _, _, hua1⟩
        · rw [hua1]
          exact hx
        · rw [hua1]
          by_cases hu : u = a.author_id
          · subst hu
            rw [upd_same]
            simp only [List.mem_append]
            exact Or.inl hx
          · rw [upd_ne ua _ hu]
            exact hx
      · intro k x hx
        apply m2
        by_cases hk : k = a.question_id
        · subst hk
          rw [upd_same]
          simp only [List.mem_append]
          exact Or.inl hx
        · rw [upd_ne qans _ hk]
          exact hx

theorem answersPass_spec {ubi : List (String × User)}
    {qbi : List (String × Question)} :
    ∀ (rows : List Answer) (i : Nat) (aa : Nat → Option String)
      (ua : String → ScColl Nat) (aq : Nat → Option String)
      (qans : String → ScColl Nat) {aa' : Nat → Option String}
      {ua' : String → ScColl Nat} {aq' : Nat → Option String}
      {qans' : String → ScColl Nat},
      answersPass ubi qbi rows i aa ua aq qans = .ok (aa', ua', aq', qans') →
      ∀ (j : Nat) (hj : j < rows.length),
        ((alookup (rows.get ⟨j, hj⟩).author_id ubi = none →
            aa' (i + j) = none) ∧
         (∀ u, alookup (rows.get ⟨j, hj⟩).author_id ubi = some u →
            aa' (i + j) = some (rows.get ⟨j, hj⟩).author_id ∧
            (i + j) ∈ (ua' (rows.get ⟨j, hj⟩).author_id).items)) ∧
        (alookup (rows.get ⟨j, hj⟩).question_id qbi).isSome = true ∧
        aq' (i + j) = some (rows.get ⟨j, hj⟩).question_id ∧
        (i + j) ∈ (qans' (rows.get ⟨j, hj⟩).question_id).items := by
  intro rows
  induction rows with
  | nil =>
      intro i aa ua aq qans aa' ua' aq' qans' h j hj
      exact absurd hj (Nat.not_lt_zero j)
  | cons a rest ih =>
      intro i aa ua aq qans aa' ua' aq' qans' h j hj
      obtain ⟨aa1, ua1, q, hstep, hq, hfz, h⟩ := answersPass_cons h
      cases j with
      | zero =>
          have hget : (a :: rest).get ⟨0, hj⟩ = a := rfl
          rw [hget, Nat.add_zero]
          have hfr := answersPass_frame _ _ _ _ _ _ h i (Nat.lt_succ_self i)
          have hmono := answersPass_mono _ _ _ _ _ _ h
          refine ⟨⟨?_, ?_⟩, ?_, ?_, ?_⟩
          · intro hau
            rcases hstep with ⟨_, haa1, _⟩ | ⟨u, hau', _, _, _⟩
            · rw [hfr.1, haa1, upd_same]
            · rw [hau] at hau'
              exact Option.noConfusion hau'
          · intro u hau
            rcases hstep with ⟨hau', _, _⟩ | ⟨w, hau', _, haa1, hua1⟩
            · rw [hau] at hau'
              exact Option.noConfusion hau'
            · constructor
              · rw [hfr.1, haa1, upd_same]
              · apply hmono.1
                rw [hua1, upd_same]
                simp
          · rw [dictGetE_ok hq]
            rfl
          · rw [hfr.2, upd_same]
          · apply hmono.2
            rw [upd_same]
            simp
      | succ j =>
          have hj' : j < rest.length := Nat.lt_of_succ_lt_succ hj
          have hget : (a :: rest).get ⟨j + 1, hj⟩ = rest.get ⟨j, hj'⟩ := rfl
          have hadd : i + (j + 1) = (i + 1) + j := by omega
          rw [hget, hadd]
          exact ih _ _ _ _ _ h j hj'

theorem answersPass_total {ubi : List (String × User)}
    {qbi : List (String × Question)} :
    ∀ (rows : List Answer) (i : Nat) (aa : Nat → Option String)
      (ua : String → ScColl Nat) (aq : Nat → Option String)
      (qans : String → ScColl Nat),
      (∀ u, (ua u).frozen = false) → (∀ k, (qans k).frozen = false) →
      (∀ a ∈ rows, (alookup a.question_id qbi).isSome = true) →
      ∃ r, answersPass ubi qbi rows i aa ua aq qans = .ok r := by
  intro rows
  induction rows with
  | nil => intro i aa ua aq qans _ _ _; exact ⟨_, rfl⟩
  | cons a rest ih =>
      intro i aa ua aq qans hua hqans hres
      have hq : ∃ q, alookup a.question_id qbi = some q := by
        have := hres a (List.mem_cons_self a rest)
        cases hqq : alookup a.question_id qbi with
        | none => rw [hqq] at this; exact Bool.noConfusion this
        | some q => exact ⟨q, rfl⟩
      obtain ⟨q, hq⟩ := hq
      have hdg : dictGetE qbi a.question_id = .ok q := by
        unfold dictGetE
        rw [hq]
      have happ2 : (qans a.question_id).append i =
          .ok ⟨false, (qans a.question_id).items ++ [i]⟩ := by
        unfold ScColl.append
        rw [hqans a.question_id]
        simp
      have hqans' : ∀ k, ((upd qans a.question_id
          ⟨false, (qans a.question_id).items ++ [i]⟩) k).frozen = false := by
        intro k
        by_cases hk : k = a.question_id
        · subst hk; rw [upd_same]
        · rw [upd_ne qans _ hk]; exact hqans k
      have hres' : ∀ b ∈ rest, (alookup b.question_id qbi).isSome = true :=
        fun b hb => hres b (List.mem_cons_of_mem a hb)
      unfold answersPass
      cases hau : alookup a.author_id ubi with
      | none =>
          obtain ⟨r, hr⟩ := ih (i + 1) (upd aa i none) ua
            (upd aq i (some a.question_id)) _ hua hqans' hres'
          refine ⟨r, ?_⟩
          simp only [Bind.bind, Except.bind, hdg, happ2]
          exact hr
      | some u =>
          have happ1 : (ua a.author_id).append i =
              .ok ⟨false, (ua a.author_id).items ++ [i]⟩ := by
            unfold ScColl.append
            rw [hua a.author_id]
            simp
          have hua' : ∀ k, ((upd ua a.author_id
              ⟨false, (ua a.author_id).items ++ [i]⟩) k).frozen = false := by
            intro k
            by_cases hk : k = a.author_id
            · subst hk; rw [upd_same]
            · rw [upd_ne ua _ hk]; exact hua k
          obtain ⟨r, hr⟩ := ih (i + 1) (upd aa i (some a.author_id)) _
            (upd aq i (some a.question_id)) _ hua' hqans' hres'
          refine ⟨r, ?_⟩
          simp only [Bind.bind, Except.bind, hdg, happ1, happ2]
          exact hr

/-! ### The emails pass -/

theorem emailsPass_cons {pbi : List (String × Professional)} {e : Email}
    {rest : List Email} {pe : String → ScColl String}
    {er : String → Option String}
    {res : (String → ScColl String) × (String → Option String)}
    (h : emailsPass pbi (e :: rest) pe er = .ok res) :
    ∃ p, dictGetE pbi e.recipient_id = .ok p ∧
      (pe e.recipient_id).frozen = false ∧
      emailsPass pbi rest
        (upd pe e.recipient_id
          ⟨false, (pe e.recipient_id).items ++ [e.emails_id]⟩)
        (upd er e.emails_id (some e.recipient_id)) = .ok res := by
  unfold emailsPass at h
  obtain ⟨p, hp, h⟩ := bind_ok h
  obtain ⟨c, hc, h⟩ := bind_ok h
  obtain ⟨hf, he⟩ := append_ok hc
  rw [he] at h
  exact ⟨p, hp, hf, h⟩

theorem emailsPass_frame {pbi : List (String × Professional)} :
    ∀ (rows : List Email) (pe : String → ScColl String)
      (er : String → Option String) {pe' : String → ScColl String}
      {er' : String → Option String},
      emailsPass pbi rows pe er = .ok (pe', er') →
      ∀ k, k ∉ rows.map Email.emails_id → er' k = er k := by
  intro rows
  induction rows with
  | nil =>
      intro pe er pe' er' h k _
      unfold emailsPass at h
      simp only [Except.ok.injEq, Prod.mk.injEq] at h
      rw [← h.2]
  | cons e rest ih =>
      intro pe er pe' er' h k hk
      simp only [List.map_cons, List.mem_cons, not_or] at hk
      obtain ⟨p, hp, hf, h⟩ := emailsPass_cons h
      rw [ih _ _ h k hk.2, upd_ne er _ hk.1]

theorem emailsPass_mono {pbi : List (String × Professional)} :
    ∀ (rows : List Email) (pe : String → ScColl String)
      (er : String → Option String) {pe' : String → ScColl String}
      {er' : String → Option String},
      emailsPass pbi rows pe er = .ok (pe', er') →
      ∀ u x, x ∈ (pe u).items → x ∈ (pe' u).items := by
  intro rows
  induction rows with
  | nil =>
      intro pe er pe' er' h u x hx
      unfold emailsPass at h
      simp only [Except.ok.injEq, Prod.mk.injEq] at h
      rw [← h.1]
      exact hx
  | cons e rest ih =>
      intro pe er pe' er' h u x hx
      obtain ⟨p, hp, hf, h⟩ := emailsPass_cons h
      refine ih _ _ h u x ?_
      by_cases hu : u = e.recipient_id
      · subst hu
        rw [upd_same]
        simp only [List.mem_append]
        exact Or.inl hx
      · rw [upd_ne pe _ hu]
        exact hx

theorem emailsPass_spec {pbi : List (String × Professional)} :
    ∀ (rows : List Email) (pe : String → ScColl String)
      (er : String → Option String) {pe' : String → ScColl String}
      {er' : String → Option String},
      emailsPass pbi rows pe er = .ok (pe', er') →
      (rows.map Email.emails_id).Nodup →
      ∀ e ∈ rows,
        (alookup e.recipient_id pbi).isSome = true ∧
        er' e.emails_id = some e.recipient_id ∧
        e.emails_id ∈ (pe' e.recipient_id).items := by
  intro rows
  induction rows with
  | nil =>
      intro pe er pe' er' _ _ e he
      exact absurd he (List.not_mem_nil e)
  | cons e0 rest ih =>
      intro pe er pe' er' h hnd e he
      rw [List.map_cons, List.nodup_cons] at hnd
      obtain ⟨p, hp, hf, h⟩ := emailsPass_cons h
      rcases List.mem_cons.mp he with rfl | he'
      · refine ⟨?_, ?_, ?_⟩
        · rw [dictGetE_ok hp]
          rfl
        · rw [emailsPass_frame _ _ _ h _ hnd.1, upd_same]
        · apply emailsPass_mono _ _ _ h
          rw [upd_same]
          simp
      · exact ih _ _ h hnd.2 e he'

/-! ### Inversion of a successful `linkCore` run -/

theorem linkCore_ok {cv : CV} {jt : JoinTables} {cv' : CV}
    (h : linkCore cv jt = .ok cv') :
    ∃ (users_by_id : List (String × User))
      (professionals_by_id : List (String × Professional))
      (tags_by_id : List (Int × Tag))
      (tu : Int → ScColl String) (ut : String → ScColl Int)
      (groups_by_id : List (String × Group))
      (gu ug : String → ScColl String)
      (schoolIds : List Int) (su : Int → ScColl String)
      (us : String → ScColl Int)
      (questions_by_id : List (String × Question))
      (tq : Int → ScColl String) (qt : String → ScColl Int)
      (qauth : String → Option String) (uq : String → ScColl String)
      (aa : Nat → Option String) (ua : String → ScColl Nat)
      (aq : Nat → Option String) (qans : String → ScColl Nat)
      (pe : String → ScColl String) (er : String → Option String)
      (emails_by_id : List (String × Email))
      (eqs qes : String → ScColl String),
      usersIndex cv = .ok users_by_id ∧
      key_by cv.professionals Professional.professionals_id
        = .ok professionals_by_id ∧
      key_by cv.tags Tag.tags_id = .ok tags_by_id ∧
      joinPass tags_by_id users_by_id
        (jt.tag_users.map fun r => (r.tag_users_tag_id, r.tag_users_user_id))
        cv.tagUsers cv.userTags = .ok (tu, ut) ∧
      key_by cv.groups Group.groups_id = .ok groups_by_id ∧
      joinPass groups_by_id users_by_id
        (jt.group_memberships.map fun r =>
          (r.group_memberships_group_id, r.group_memberships_user_id))
        cv.groupUsers cv.userGroups = .ok (gu, ug) ∧
      schoolsPass users_by_id jt.school_memberships []
        cv.schoolUsers cv.userSchools = .ok (schoolIds, su, us) ∧
      key_by cv.questions Question.questions_id = .ok questions_by_id ∧
      joinPass tags_by_id questions_by_id
        (jt.tag_questions.map fun r =>
          (r.tag_questions_tag_id, r.tag_questions_question_id))
        cv.tagQuestionsColl cv.questionTags = .ok (tq, qt) ∧
      questionAuthorPass users_by_id cv.questions
        cv.questionAuthor cv.userQuestions = .ok (qauth, uq) ∧
      answersPass users_by_id questions_by_id cv.answers 0
        cv.answerAuthor cv.userAnswers cv.answerQuestion cv.questionAnswers
        = .ok (aa, ua, aq, qans) ∧
      emailsPass professionals_by_id cv.emails
        cv.profEmails cv.emailRecipient = .ok (pe, er) ∧
      key_by cv.emails Email.emails_id = .ok emails_by_id ∧
      joinPass emails_by_id questions_by_id
        (jt.«matches».map fun r => (r.matches_email_id, r.matches_question_id))
        cv.emailQuestions cv.questionEmails = .ok (eqs, qes) ∧
      cv' = sealGraph cv schoolIds tu ut gu ug su us tq qt qauth uq aa ua aq
        qans pe er eqs qes := by
  unfold linkCore at h
  obtain ⟨ubi, h1, h⟩ := bind_ok h
  obtain ⟨pbi, h2, h⟩ := bind_ok h
  obtain ⟨tbi, h3, h⟩ := bind_ok h
  obtain ⟨p1, h4, h⟩ := bind_ok h
  obtain ⟨tu, ut⟩ := p1
  obtain ⟨gbi, h5, h⟩ := bind_ok h
  obtain ⟨p2, h6, h⟩ := bind_ok h
  obtain ⟨gu, ug⟩ := p2
  obtain ⟨p3, h7, h⟩ := bind_ok h
  obtain ⟨schoolIds, su, us⟩ := p3
  obtain ⟨qbi, h8, h⟩ := bind_ok h
  obtain ⟨p4, h9, h⟩ := bind_ok h
  obtain ⟨tq, qt⟩ := p4
  obtain ⟨p5, h10, h⟩ := bind_ok h
  obtain ⟨qauth, uq⟩ := p5
  obtain ⟨p6, h11, h⟩ := bind_ok h
  obtain ⟨aa, ua, aq, qans⟩ := p6
  obtain ⟨p7, h12, h⟩ := bind_ok h
  obtain ⟨pe, er⟩ := p7
  obtain ⟨ebi, h13, h⟩ := bind_ok h
  obtain ⟨p8, h14, h⟩ := bind_ok h
  obtain ⟨eqs, qes⟩ := p8
  simp only [Except.ok.injEq] at h
  exact ⟨ubi, pbi, tbi, tu, ut, gbi, gu, ug, schoolIds, su, us, qbi, tq, qt,
    qauth, uq, aa, ua, aq, qans, pe, er, ebi, eqs, qes,
    h1, h2, h3, h4, h5, h6, h7, h8, h9, h10, h11, h12, h13, h14, h.symm⟩

/-! ### The merged user index -/

/-- The identifiers of the merged user namespace (Students then
Professionals), for stating author-resolution properties. -/
def userIds (cv : CV) : List String :=
  cv.students.map Student.students_id ++
    cv.professionals.map Professional.professionals_id

theorem alookup_map_self {κ α β : Type} [DecidableEq κ] {l : List α}
    {f : α → κ} (g : α → β) (hnd : (l.map f).Nodup) {x : α} (hx : x ∈ l) :
    alookup (f x) (l.map fun y => (f y, g y)) = some (g x) := by
  induction l with
  | nil => exact absurd hx (List.not_mem_nil x)
  | cons y rest ih =>
      rw [List.map_cons, List.nodup_cons] at hnd
      rcases List.mem_cons.mp hx with rfl | hx'
      · simp [alookup]
      · have hne : f x ≠ f y := by
          intro hc
          exact hnd.1 (hc ▸ List.mem_map_of_mem f hx')
        simp only [List.map_cons, alookup, if_neg hne]
        exact ih hnd.2 hx'

theorem usersIndex_ok {cv : CV} {ubi : List (String × User)}
    (h : usersIndex cv = .ok ubi) :
    ubi = (cv.students.map fun s => (s.students_id, User.student s)) ++
      (cv.professionals.map fun p => (p.professionals_id, User.professional p)) ∧
    (cv.students.map Student.students_id).Nodup ∧
    (cv.professionals.map Professional.professionals_id).Nodup := by
  unfold usersIndex at h
  obtain ⟨sbi, hs, h⟩ := bind_ok h
  obtain ⟨pbi, hp, h⟩ := bind_ok h
  obtain ⟨hsval, hsnd⟩ := key_by_ok hs
  obtain ⟨hpval, hpnd⟩ := key_by_ok hp
  obtain ⟨hval, _⟩ := union_ok h
  subst hsval hpval
  rw [List.map_map, List.map_map] at hval
  exact ⟨hval, hsnd, hpnd⟩

theorem usersIndex_keys {cv : CV} {ubi : List (String × User)}
    (h : usersIndex cv = .ok ubi) : ubi.map Prod.fst = userIds cv := by
  obtain ⟨hval, _, _⟩ := usersIndex_ok h
  rw [hval, userIds, List.map_append, List.map_map, List.map_map]
  rfl

theorem usersIndex_lookup_none {cv : CV} {ubi : List (String × User)}
    (h : usersIndex cv = .ok ubi) (k : String) :
    alookup k ubi = none ↔ k ∉ userIds cv := by
  rw [alookup_eq_none, usersIndex_keys h]

/-! ### Examples used to exercise the theorems -/

/-- An already-linked graph (the `linked` flag set), as `link` leaves it. -/
def cvLinkedEx : CV := { CV.load_raw [] [] [] [] [] [] [] with linked := true }

/-- Empty join tables. -/
def jtEmpty : JoinTables := ⟨[], [], [], [], []⟩

/-! ### Claims -/

/-- C8: the `save` operation rejects exactly the linked graphs: pickling a
linked/sealed `CareerVillage` fails fatally with the `RuntimeError`
(StateError), while saving an unlinked graph (`linked` flag false) succeeds;
`save` never writes a linked graph. -/
theorem save_rejects_linked (cv : CV) :
    (CV.save cv = .error .stateError ↔ cv.linked = true) ∧
    (CV.save cv = .ok () ↔ cv.linked = false) := by
  unfold CV.save
  cases h : cv.linked <;> simp

/-- C8 witness: `save` errors on a concrete linked graph and succeeds on a
concrete unlinked graph. -/
theorem save_rejects_linked_witness :
    CV.save cvLinkedEx = .error .stateError ∧
    CV.save (CV.load_raw [] [] [] [] [] [] []) = .ok () :=
  ⟨(save_rejects_linked cvLinkedEx).1.mpr rfl,
   (save_rejects_linked (CV.load_raw [] [] [] [] [] [] [])).2.mpr rfl⟩

/-- C9 counterexample: invoking `link` on an already-linked graph does NOT
fail with a StateError; it completes without error (returning the graph
unchanged). -/
theorem relink_counterexample :
    CV.link cvLinkedEx jtEmpty = .ok cvLinkedEx ∧ cvLinkedEx.linked = true :=
  ⟨rfl, rfl⟩

/-- C9 (amended): invoking `link` a second time on an already-linked graph is
a silent no-op guarded by the `linked` flag — it returns immediately without
error and without performing any linking pass, leaving the graph unchanged
(rather than raising a StateError). -/
theorem relink_silent_noop (cv : CV) (jt : JoinTables)
    (h : cv.linked = true) : CV.link cv jt = .ok cv := by
  unfold CV.link
  rw [h]
  simp

/-- C9 witness: the no-op result on a concrete already-linked graph. -/
theorem relink_silent_noop_witness :
    cvLinkedEx.linked = true ∧ CV.link cvLinkedEx jtEmpty = .ok cvLinkedEx :=
  ⟨rfl, relink_silent_noop cvLinkedEx jtEmpty rfl⟩

/-- C10: on an unlinked graph freshly constructed from raw records, the
single-valued references — a Question's `author`, an Answer's `author` and
`question`, an Email's `recipient` — all read as `None` (the class-level
defaults), for every entity, without any error. -/
theorem unlinked_refs_none (tags : List Tag) (groups : List Group)
    (students : List Student) (professionals : List Professional)
    (questions : List Question) (answers : List Answer) (emails : List Email) :
    (∀ qid, (CV.load_raw tags groups students professionals questions answers
      emails).questionAuthor qid = none) ∧
    (∀ i, (CV.load_raw tags groups students professionals questions answers
      emails).answerAuthor i = none) ∧
    (∀ i, (CV.load_raw tags groups students professionals questions answers
      emails).answerQuestion i = none) ∧
    (∀ eid, (CV.load_raw tags groups students professionals questions answers
      emails).emailRecipient eid = none) :=
  ⟨fun _ => rfl, fun _ => rfl, fun _ => rfl, fun _ => rfl⟩

/-- C3: with per-table unique identifiers, an id shared between the Student
and Professional collections makes the merged-user-index construction fail
with the OverlapError — and `link` then fails with that same error for every
join-table input, before any linking pass touches any entity; with disjoint
id sets the merged index maps each Student id to its Student and each
Professional id to its Professional. -/
theorem user_id_namespaces_disjoint (cv : CV)
    (hs : (cv.students.map Student.students_id).Nodup)
    (hp : (cv.professionals.map Professional.professionals_id).Nodup) :
    ((∃ uid, uid ∈ cv.students.map Student.students_id ∧
        uid ∈ cv.professionals.map Professional.professionals_id) →
      usersIndex cv = .error .overlapError ∧
      (cv.linked = false → ∀ jt, CV.link cv jt = .error .overlapError)) ∧
    ((∀ uid ∈ cv.students.map Student.students_id,
        uid ∉ cv.professionals.map Professional.professionals_id) →
      ∃ m, usersIndex cv = .ok m ∧
        (∀ s ∈ cv.students, alookup s.students_id m = some (User.student s)) ∧
        (∀ p ∈ cv.professionals,
          alookup p.professionals_id m = some (User.professional p))) := by
  have hsmapkeys :
      (cv.students.map fun s => (s.students_id, User.student s)).map Prod.fst
        = cv.students.map Student.students_id := by
    rw [List.map_map]
    rfl
  have hscomp : ((cv.students.map fun x => (Student.students_id x, x)).map
      fun p => (p.1, User.student p.2)) =
      cv.students.map fun s => (s.students_id, User.student s) := by
    rw [List.map_map]
    rfl
  have hpcomp : ((cv.professionals.map fun x =>
      (Professional.professionals_id x, x)).map
      fun p => (p.1, User.professional p.2)) =
      cv.professionals.map fun p => (p.professionals_id, User.professional p) := by
    rw [List.map_map]
    rfl
  constructor
  · rintro ⟨uid, hus, hup⟩
    have herr : usersIndex cv = .error .overlapError := by
      unfold usersIndex
      rw [key_by_ok_of_nodup hs, key_by_ok_of_nodup hp]
      simp only [Bind.bind, Except.bind]
      rw [hscomp, hpcomp]
      obtain ⟨pr, hpr, hpid⟩ := List.mem_map.mp hup
      refine union_error (pr.professionals_id, User.professional pr) ?_ ?_
      · exact List.mem_map_of_mem _ hpr
      · apply alookup_isSome.mpr
        rw [hsmapkeys, hpid]
        exact hus
    refine ⟨herr, fun hlf jt => ?_⟩
    have hlink : CV.link cv jt = linkCore cv jt := by
      unfold CV.link
      rw [hlf]
      simp
    rw [hlink]
    unfold linkCore
    rw [herr]
    rfl
  · intro hdisj
    have hnone : ∀ q ∈ (cv.professionals.map fun p =>
        (p.professionals_id, User.professional p)),
        alookup q.1 (cv.students.map fun s =>
          (s.students_id, User.student s)) = none := by
      intro q hq
      obtain ⟨pr, hpr, hq⟩ := List.mem_map.mp hq
      apply alookup_eq_none.mpr
      rw [hsmapkeys, ← hq]
      intro hmem
      exact hdisj _ hmem (List.mem_map_of_mem _ hpr)
    have hok : usersIndex cv = .ok
        ((cv.students.map fun s => (s.students_id, User.student s)) ++
         (cv.professionals.map fun p =>
           (p.professionals_id, User.professional p))) := by
      unfold usersIndex
      rw [key_by_ok_of_nodup hs, key_by_ok_of_nodup hp]
      simp only [Bind.bind, Except.bind]
      rw [hscomp, hpcomp]
      exact union_ok_of_disjoint hnone
    refine ⟨_, hok, fun s hsmem => ?_, fun p hpmem => ?_⟩
    · rw [alookup_append]
      rw [alookup_map_self (fun s => User.student s) hs hsmem]
    · rw [alookup_append]
      have : alookup p.professionals_id (cv.students.map fun s =>
          (s.students_id, User.student s)) = none := by
        apply alookup_eq_none.mpr
        rw [hsmapkeys]
        intro hmem
        exact hdisj _ hmem (List.mem_map_of_mem _ hpmem)
      rw [this]
      rw [alookup_map_self (fun p => User.professional p) hp hpmem]

theorem link_ok_core {cv : CV} {jt : JoinTables} {cv' : CV}
    (hlf : cv.linked = false) (hok : CV.link cv jt = .ok cv') :
    linkCore cv jt = .ok cv' := by
  unfold CV.link at hok
  rw [hlf] at hok
  simpa using hok

/-- C1: in a successfully linked graph, every answer's `question` reference
is non-null and set to its stored `question_id`, which names a question of
the graph (question ids are unique, so the reference equals the question
whose identifier matches), and the answer is a member of that question's
`answers` collection. A `question_id` absent from the question index can
never produce a successful link — linking fails rather than leaving the
reference null — since success forces every answer's `question_id` to be a
known question id. -/
theorem answers_link_to_questions (cv : CV) (jt : JoinTables) (cv' : CV)
    (hlf : cv.linked = false) (hok : CV.link cv jt = .ok cv')
    (i : Nat) (hi : i < cv.answers.length) :
    cv'.answerQuestion i = some ((cv.answers.get ⟨i, hi⟩).question_id) ∧
    (∃ q ∈ cv.questions,
      q.questions_id = (cv.answers.get ⟨i, hi⟩).question_id) ∧
    (cv.questions.map Question.questions_id).Nodup ∧
    i ∈ (cv'.questionAnswers ((cv.answers.get ⟨i, hi⟩).question_id)).items := by
  obtain ⟨ubi, pbi, tbi, tu, ut, gbi, gu, ug, schoolIds, su, us, qbi, tq, qt,
    qauth, uq, aa, ua, aq, qans, pe, er, ebi, eqs, qes,
    h1, h2, h3, h4, h5, h6, h7, h8, h9, h10, h11, h12, h13, h14, hcv'⟩ :=
    linkCore_ok (link_ok_core hlf hok)
  obtain ⟨hqval, hqnd⟩ := key_by_ok h8
  have hspec := answersPass_spec _ _ _ _ _ _ h11 i hi
  rw [Nat.zero_add] at hspec
  obtain ⟨_, hqsome, haq, hmem⟩ := hspec
  have hqmem : (cv.answers.get ⟨i, hi⟩).question_id ∈
      cv.questions.map Question.questions_id := by
    have := alookup_isSome.mp hqsome
    rw [hqval, List.map_map] at this
    exact this
  obtain ⟨q, hq, hqid⟩ := List.mem_map.mp hqmem
  subst hcv'
  simp only [sealGraph]
  refine ⟨haq, ⟨q, hq, hqid⟩, hqnd, ?_⟩
  rw [freezeKeys_items]
  exact hmem

/-- C2: author resolution is null-tolerant for both questions and answers.
In any successful link, a question (resp. answer) whose stored `author_id` is
absent from the merged user index ends with a null author reference, while a
present `author_id` makes the reference point at that user id and appends the
question (resp. answer) to that user's `questions` (resp. `answers`)
collection. Moreover absence of an author can never raise an error: the
question-author pass always succeeds, and the answers pass succeeds whenever
every answer's question resolves, regardless of the author ids. -/
theorem author_resolution_null_tolerant (cv : CV) (jt : JoinTables) (cv' : CV)
    (hlf : cv.linked = false) (hok : CV.link cv jt = .ok cv') :
    (∀ q ∈ cv.questions,
      (q.author_id ∉ userIds cv → cv'.questionAuthor q.questions_id = none) ∧
      (q.author_id ∈ userIds cv →
        cv'.questionAuthor q.questions_id = some q.author_id ∧
        q.questions_id ∈ (cv'.userQuestions q.author_id).items)) ∧
    (∀ (i : Nat) (hi : i < cv.answers.length),
      ((cv.answers.get ⟨i, hi⟩).author_id ∉ userIds cv →
        cv'.answerAuthor i = none) ∧
      ((cv.answers.get ⟨i, hi⟩).author_id ∈ userIds cv →
        cv'.answerAuthor i = some ((cv.answers.get ⟨i, hi⟩).author_id) ∧
        i ∈ (cv'.userAnswers ((cv.answers.get ⟨i, hi⟩).author_id)).items)) ∧
    (∀ (ubi : List (String × User)) (qs : List Question)
      (qa : String → Option String) (uqm : String → ScColl String),
      (∀ u, (uqm u).frozen = false) →
      ∃ r, questionAuthorPass ubi qs qa uqm = .ok r) ∧
    (∀ (ubi : List (String × User)) (qbi : List (String × Question))
      (rows : List Answer) (i : Nat) (aa : Nat → Option String)
      (ua : String → ScColl Nat) (aq : Nat → Option String)
      (qans : String → ScColl Nat),
      (∀ u, (ua u).frozen = false) → (∀ k, (qans k).frozen = false) →
      (∀ a ∈ rows, (alookup a.question_id qbi).isSome = true) →
      ∃ r, answersPass ubi qbi rows i aa ua aq qans = .ok r) := by
  obtain ⟨ubi, pbi, tbi, tu, ut, gbi, gu, ug, schoolIds, su, us, qbi, tq, qt,
    qauth, uq, aa, ua, aq, qans, pe, er, ebi, eqs, qes,
    h1, h2, h3, h4, h5, h6, h7, h8, h9, h10, h11, h12, h13, h14, hcv'⟩ :=
    linkCore_ok (link_ok_core hlf hok)
  obtain ⟨hqval, hqnd⟩ := key_by_ok h8
  have hnone : ∀ k, alookup k ubi = none ↔ k ∉ userIds cv :=
    usersIndex_lookup_none h1
  have hsome : ∀ k, (alookup k ubi).isSome = true ↔ k ∈ userIds cv := by
    intro k
    rw [alookup_isSome, usersIndex_keys h1]
  subst hcv'
  simp only [sealGraph]
  refine ⟨?_, ?_, ?_, ?_⟩
  · intro q hq
    have hspec := questionAuthorPass_spec _ _ _ h10 hqnd q hq
    constructor
    · intro habs
      exact hspec.1 ((hnone q.author_id).mpr habs)
    · intro hpres
      obtain ⟨u, hu⟩ := Option.isSome_iff_exists.mp ((hsome q.author_id).mpr hpres)
      obtain ⟨hset, hmem⟩ := hspec.2 u hu
      refine ⟨hset, ?_⟩
      rw [freezeKeys_items, freezeKeys_items]
      exact hmem
  · intro i hi
    have hspec := answersPass_spec _ _ _ _ _ _ h11 i hi
    rw [Nat.zero_add] at hspec
    constructor
    · intro habs
      exact hspec.1.1 ((hnone _).mpr habs)
    · intro hpres
      obtain ⟨u, hu⟩ := Option.isSome_iff_exists.mp ((hsome _).mpr hpres)
      obtain ⟨hset, hmem⟩ := hspec.1.2 u hu
      refine ⟨hset, ?_⟩
      rw [freezeKeys_items, freezeKeys_items]
      exact hmem
  · intro ubi2 qs qa2 uqm hm
    exact questionAuthorPass_total qs qa2 uqm hm
  · intro ubi2 qbi2 rows i aa2 ua2 aq2 qans2 hm1 hm2 hq
    exact answersPass_total rows i aa2 ua2 aq2 qans2 hm1 hm2 hq

/-- C7: in a successful link every email's `recipient_id` resolved in the
Professional index (so an absent recipient id can never yield a successful
construction — the lookup raises instead), the email's `recipient` reference
is set to that professional's id, and the email is a member of the
recipient's `emails` collection. -/
theorem email_recipient_resolution (cv : CV) (jt : JoinTables) (cv' : CV)
    (hlf : cv.linked = false) (hok : CV.link cv jt = .ok cv') :
    ∀ e ∈ cv.emails,
      e.recipient_id ∈ cv.professionals.map Professional.professionals_id ∧
      cv'.emailRecipient e.emails_id = some e.recipient_id ∧
      e.emails_id ∈ (cv'.profEmails e.recipient_id).items := by
  obtain ⟨ubi, pbi, tbi, tu, ut, gbi, gu, ug, schoolIds, su, us, qbi, tq, qt,
    qauth, uq, aa, ua, aq, qans, pe, er, ebi, eqs, qes,
    h1, h2, h3, h4, h5, h6, h7, h8, h9, h10, h11, h12, h13, h14, hcv'⟩ :=
    linkCore_ok (link_ok_core hlf hok)
  obtain ⟨hpval, hpnd⟩ := key_by_ok h2
  obtain ⟨heval, hend⟩ := key_by_ok h13
  subst hcv'
  simp only [sealGraph]
  intro e he
  obtain ⟨hrsome, hset, hmem⟩ := emailsPass_spec _ _ _ h12 hend e he
  refine ⟨?_, hset, ?_⟩
  · have := alookup_isSome.mp hrsome
    rw [hpval, List.map_map] at this
    exact this
  · rw [freezeKeys_items]
    exact hmem

/-- C6: school synthesis is lazy and idempotent. In a successful link the
sealed graph's `schools` list is exactly the side table built by the
school-membership pass: the distinct school ids of the membership rows in
order of first occurrence — one `School` per distinct id (no duplicates),
created at its first row and reused by every later row with the same id. -/
theorem schools_synthesized_lazily (cv : CV) (jt : JoinTables) (cv' : CV)
    (hlf : cv.linked = false) (hok : CV.link cv jt = .ok cv') :
    cv'.schools.Nodup ∧
    (∀ s : Int, s ∈ cv'.schools ↔ s ∈ jt.school_memberships.map
      SchoolMembershipRow.school_memberships_school_id) ∧
    cv'.schools = firstOccurrences
      (jt.school_memberships.map
        SchoolMembershipRow.school_memberships_school_id) [] := by
  obtain ⟨ubi, pbi, tbi, tu, ut, gbi, gu, ug, schoolIds, su, us, qbi, tq, qt,
    qauth, uq, aa, ua, aq, qans, pe, er, ebi, eqs, qes,
    h1, h2, h3, h4, h5, h6, h7, h8, h9, h10, h11, h12, h13, h14, hcv'⟩ :=
    linkCore_ok (link_ok_core hlf hok)
  have hside := schoolsPass_sideTable _ _ _ _ h7
  subst hcv'
  simp only [sealGraph]
  refine ⟨?_, ?_, hside⟩
  · rw [hside]
    exact firstOccurrences_nodup _ _ List.nodup_nil
  · intro s
    rw [hside, firstOccurrences_mem]
    simp

/-- C4: bidirectional closure after linking a freshly loaded graph, for every
join-resolved link type (Tag↔User, Group↔User, School↔User, Tag↔Question,
Email↔Question): one side holds the other in its collection exactly when the
other holds it back, because every join row appends to both sides. -/
theorem bidirectional_closure (tags : List Tag) (groups : List Group)
    (students : List Student) (professionals : List Professional)
    (questions : List Question) (answers : List Answer) (emails : List Email)
    (jt : JoinTables) (cv' : CV)
    (hok : CV.link (CV.load_raw tags groups students professionals questions
      answers emails) jt = .ok cv') :
    (∀ t u, u ∈ (cv'.tagUsers t).items ↔ t ∈ (cv'.userTags u).items) ∧
    (∀ g u, u ∈ (cv'.groupUsers g).items ↔ g ∈ (cv'.userGroups u).items) ∧
    (∀ sid u,
      u ∈ (cv'.schoolUsers sid).items ↔ sid ∈ (cv'.userSchools u).items) ∧
    (∀ t q,
      q ∈ (cv'.tagQuestionsColl t).items ↔ t ∈ (cv'.questionTags q).items) ∧
    (∀ e q,
      q ∈ (cv'.emailQuestions e).items ↔ e ∈ (cv'.questionEmails q).items) := by
  obtain ⟨ubi, pbi, tbi, tu, ut, gbi, gu, ug, schoolIds, su, us, qbi, tq, qt,
    qauth, uq, aa, ua, aq, qans, pe, er, ebi, eqs, qes,
    h1, h2, h3, h4, h5, h6, h7, h8, h9, h10, h11, h12, h13, h14, hcv'⟩ :=
    linkCore_ok (link_ok_core rfl hok)
  have hempty : ∀ (κ₁ κ₂ : Type) (a : κ₁) (b : κ₂),
      b ∈ ((ScColl.empty : ScColl κ₂)).items ↔
      a ∈ ((ScColl.empty : ScColl κ₁)).items := by
    intro κ₁ κ₂ a b
    simp [ScColl.empty]
  have hcl1 := joinPass_closure _ _ _ h4 (fun a b => hempty _ _ a b)
  have hcl2 := joinPass_closure _ _ _ h6 (fun a b => hempty _ _ a b)
  have hcl3 := schoolsPass_closure _ _ _ _ h7 (fun a b => hempty _ _ a b)
  have hcl4 := joinPass_closure _ _ _ h9 (fun a b => hempty _ _ a b)
  have hcl5 := joinPass_closure _ _ _ h14 (fun a b => hempty _ _ a b)
  subst hcv'
  simp only [sealGraph]
  refine ⟨fun t u => ?_, fun g u => ?_, fun sid u => ?_, fun t q => ?_,
    fun e q => ?_⟩
  · rw [freezeKeys_items, freezeKeys_items, freezeKeys_items]
    exact hcl1 t u
  · rw [freezeKeys_items, freezeKeys_items, freezeKeys_items]
    exact hcl2 g u
  · rw [freezeKeys_items, freezeKeys_items, freezeKeys_items]
    exact hcl3 sid u
  · rw [freezeKeys_items, freezeKeys_items]
    exact hcl4 t q
  · rw [freezeKeys_items, freezeKeys_items]
    exact hcl5 e q

/-- C5: once `link` completes, every relationship collection of every entity
in the sealed graph is in the immutable frozen form (`ScFrozenList`), and a
frozen collection refuses any further append with the StateError — so no
entity gains or loses a relationship after sealing. -/
theorem sealed_collections_frozen (cv : CV) (jt : JoinTables) (cv' : CV)
    (hlf : cv.linked = false) (hok : CV.link cv jt = .ok cv') :
    (∀ t ∈ cv'.tags, (cv'.tagUsers t.tags_id).frozen = true ∧
      (cv'.tagQuestionsColl t.tags_id).frozen = true) ∧
    (∀ g ∈ cv'.groups, (cv'.groupUsers g.groups_id).frozen = true) ∧
    (∀ sid ∈ cv'.schools, (cv'.schoolUsers sid).frozen = true) ∧
    (∀ s ∈ cv'.students, (cv'.userTags s.students_id).frozen = true ∧
      (cv'.userGroups s.students_id).frozen = true ∧
      (cv'.userSchools s.students_id).frozen = true ∧
      (cv'.userQuestions s.students_id).frozen = true ∧
      (cv'.userAnswers s.students_id).frozen = true) ∧
    (∀ p ∈ cv'.professionals,
      (cv'.userTags p.professionals_id).frozen = true ∧
      (cv'.userGroups p.professionals_id).frozen = true ∧
      (cv'.userSchools p.professionals_id).frozen = true ∧
      (cv'.userQuestions p.professionals_id).frozen = true ∧
      (cv'.userAnswers p.professionals_id).frozen = true ∧
      (cv'.profEmails p.professionals_id).frozen = true) ∧
    (∀ q ∈ cv'.questions, (cv'.questionTags q.questions_id).frozen = true ∧
      (cv'.questionEmails q.questions_id).frozen = true ∧
      (cv'.questionAnswers q.questions_id).frozen = true) ∧
    (∀ e ∈ cv'.emails, (cv'.emailQuestions e.emails_id).frozen = true) ∧
    (∀ (α : Type) (c : ScColl α) (x : α), c.frozen = true →
      c.append x = .error .stateError) := by
  obtain ⟨ubi, pbi, tbi, tu, ut, gbi, gu, ug, schoolIds, su, us, qbi, tq, qt,
    qauth, uq, aa, ua, aq, qans, pe, er, ebi, eqs, qes,
    h1, h2, h3, h4, h5, h6, h7, h8, h9, h10, h11, h12, h13, h14, hcv'⟩ :=
    linkCore_ok (link_ok_core hlf hok)
  subst hcv'
  simp only [sealGraph]
  refine ⟨?_, ?_, ?_, ?_, ?_, ?_, ?_, fun α c x h => append_frozen c x h⟩
  · intro t ht
    exact ⟨freezeKeys_frozen_of_mem _ (List.mem_map_of_mem Tag.tags_id ht),
      freezeKeys_frozen_of_mem _ (List.mem_map_of_mem Tag.tags_id ht)⟩
  · intro g hg
    exact freezeKeys_frozen_of_mem _ (List.mem_map_of_mem Group.groups_id hg)
  · intro sid hsid
    exact freezeKeys_frozen_of_mem _ hsid
  · intro s hs
    have hm := List.mem_map_of_mem Student.students_id hs
    exact ⟨freezeKeys_frozen_mono _ _ _ (freezeKeys_frozen_of_mem _ hm),
      freezeKeys_frozen_mono _ _ _ (freezeKeys_frozen_of_mem _ hm),
      freezeKeys_frozen_mono _ _ _ (freezeKeys_frozen_of_mem _ hm),
      freezeKeys_frozen_mono _ _ _ (freezeKeys_frozen_of_mem _ hm),
      freezeKeys_frozen_mono _ _ _ (freezeKeys_frozen_of_mem _ hm)⟩
  · intro p hp
    have hm := List.mem_map_of_mem Professional.professionals_id hp
    exact ⟨freezeKeys_frozen_of_mem _ hm, freezeKeys_frozen_of_mem _ hm,
      freezeKeys_frozen_of_mem _ hm, freezeKeys_frozen_of_mem _ hm,
      freezeKeys_frozen_of_mem _ hm, freezeKeys_frozen_of_mem _ hm⟩
  · intro q hq
    have hm := List.mem_map_of_mem Question.questions_id hq
    exact ⟨freezeKeys_frozen_of_mem _ hm, freezeKeys_frozen_of_mem _ hm,
      freezeKeys_frozen_of_mem _ hm⟩
  · intro e he
    exact freezeKeys_frozen_of_mem _ (List.mem_map_of_mem Email.emails_id he)

/-! ### A worked example dataset -/

/-- A timestamp for the example records. -/
def dtEx : DateTime := ⟨2019, 1, 1, 0, 0, 0⟩

/-- Example tag #1. -/
def tagEx : Tag := ⟨1, "college"⟩

/-- Example group. -/
def groupEx : Group := ⟨"g1", "club"⟩

/-- Example student with id `s1`. -/
def studentEx : Student := ⟨"s1", none, dtEx⟩

/-- Example professional with id `p1`. -/
def professionalEx : Professional := ⟨"p1", none, none, none, dtEx⟩

/-- Example question authored by `s1`. -/
def questionEx : Question := ⟨"q1", "s1", dtEx, "title", "body"⟩

/-- Example answer to `q1` whose author id `zz` matches no user. -/
def answerEx : Answer := ⟨"a1", "zz", "q1", dtEx, "text"⟩

/-- Example email to professional `p1`. -/
def emailEx : Email := ⟨"e1", "p1", dtEx, "daily"⟩

/-- The example unlinked graph. -/
def cvEx : CV := CV.load_raw [tagEx] [groupEx] [studentEx] [professionalEx]
  [questionEx] [answerEx] [emailEx]

/-- Example join tables; school 7 occurs in two membership rows to exercise
idempotent school creation. -/
def jtEx : JoinTables :=
  { tag_users := [⟨1, "s1"⟩]
    group_memberships := [⟨"g1", "p1"⟩]
    school_memberships := [⟨7, "s1"⟩, ⟨7, "p1"⟩]
    tag_questions := [⟨1, "q1"⟩]
    «matches» := [⟨"e1", "q1"⟩] }

/-- The sealed graph produced by linking the example. -/
def linkedEx : CV := (CV.link cvEx jtEx).toOption.getD cvEx

/-- A professional deliberately reusing the student id `s1`, for the
overlap counterexample dataset. -/
def professionalOverlapEx : Professional := ⟨"s1", none, none, none, dtEx⟩

/-- A dataset whose student and professional id sets overlap on `s1`. -/
def cvOverlapEx : CV :=
  CV.load_raw [] [] [studentEx] [professionalOverlapEx] [] [] []

/-! ### Witnesses -/

/-- C1 witness: the example link succeeds and the answer at index 0 ends with
its question reference set to `q1`, a question of the graph, and is a member
of `q1`'s answers. -/
theorem answers_link_to_questions_witness :
    cvEx.linked = false ∧ CV.link cvEx jtEx = .ok linkedEx ∧
    0 < cvEx.answers.length ∧
    (linkedEx.answerQuestion 0 =
        some ((cvEx.answers.get ⟨0, by decide⟩).question_id) ∧
      (∃ q ∈ cvEx.questions,
        q.questions_id = (cvEx.answers.get ⟨0, by decide⟩).question_id) ∧
      (cvEx.questions.map Question.questions_id).Nodup ∧
      0 ∈ (linkedEx.questionAnswers
        ((cvEx.answers.get ⟨0, by decide⟩).question_id)).items) :=
  ⟨rfl, rfl, by decide,
    answers_link_to_questions cvEx jtEx linkedEx rfl rfl 0 (by decide)⟩

/-- C2 witness: in the linked example, question `q1`'s author resolved to
`s1` (and `q1` joined `s1`'s questions) while the answer's unknown author id
`zz` left a null author reference, with the link succeeding. -/
theorem author_resolution_null_tolerant_witness :
    cvEx.linked = false ∧ CV.link cvEx jtEx = .ok linkedEx ∧
    questionEx ∈ cvEx.questions ∧ "s1" ∈ userIds cvEx ∧
    (linkedEx.questionAuthor "q1" = some "s1" ∧
      "q1" ∈ (linkedEx.userQuestions "s1").items) ∧
    0 < cvEx.answers.length ∧ "zz" ∉ userIds cvEx ∧
    linkedEx.answerAuthor 0 = none := by
  refine ⟨rfl, rfl, by decide, by decide, ?_, by decide, by decide, ?_⟩
  · exact ((author_resolution_null_tolerant cvEx jtEx linkedEx rfl rfl).1
      questionEx (by decide)).2 (by decide)
  · exact ((author_resolution_null_tolerant cvEx jtEx linkedEx rfl rfl).2.1
      0 (by decide)).1 (by decide)

/-- C3 witness: the overlap dataset makes the merged index (and `link`, for
any join tables) fail with the OverlapError, while the disjoint example
yields an index mapping `s1` to the student and `p1` to the professional. -/
theorem user_id_namespaces_disjoint_witness :
    usersIndex cvOverlapEx = .error .overlapError ∧
    CV.link cvOverlapEx jtEmpty = .error .overlapError ∧
    (∃ m, usersIndex cvEx = .ok m ∧
      alookup "s1" m = some (User.student studentEx) ∧
      alookup "p1" m = some (User.professional professionalEx)) := by
  obtain ⟨herr, hlink⟩ :=
    (user_id_namespaces_disjoint cvOverlapEx (by decide) (by decide)).1
      ⟨"s1", by decide, by decide⟩
  obtain ⟨m, hm, hs, hp⟩ :=
    (user_id_namespaces_disjoint cvEx (by decide) (by decide)).2 (by decide)
  exact ⟨herr, hlink rfl jtEmpty, m, hm, hs studentEx (by decide),
    hp professionalEx (by decide)⟩

/-- C4 witness: the example link succeeds and Tag↔User closure holds at tag 1
and user `s1`, where the membership is in fact present on both sides. -/
theorem bidirectional_closure_witness :
    CV.link cvEx jtEx = .ok linkedEx ∧
    ("s1" ∈ (linkedEx.tagUsers 1).items ↔
      (1 : Int) ∈ (linkedEx.userTags "s1").items) ∧
    "s1" ∈ (linkedEx.tagUsers 1).items := by
  refine ⟨rfl, ?_, by decide⟩
  exact (bidirectional_closure [tagEx] [groupEx] [studentEx] [professionalEx]
    [questionEx] [answerEx] [emailEx] jtEx linkedEx rfl).1 1 "s1"

/-- C5 witness: after the example link, tag 1's user collection is frozen and
refuses appends. -/
theorem sealed_collections_frozen_witness :
    cvEx.linked = false ∧ CV.link cvEx jtEx = .ok linkedEx ∧
    tagEx ∈ linkedEx.tags ∧ (linkedEx.tagUsers 1).frozen = true ∧
    ∀ u : String, (linkedEx.tagUsers 1).append u = .error .stateError := by
  have h := sealed_collections_frozen cvEx jtEx linkedEx rfl rfl
  refine ⟨rfl, rfl, by decide, (h.1 tagEx (by decide)).1, fun u => ?_⟩
  exact h.2.2.2.2.2.2.2 String (linkedEx.tagUsers 1) u
    (h.1 tagEx (by decide)).1

/-- C6 witness: the two membership rows for school 7 synthesize exactly one
School: the sealed example graph's school list is `[7]`, duplicate-free. -/
theorem schools_synthesized_lazily_witness :
    cvEx.linked = false ∧ CV.link cvEx jtEx = .ok linkedEx ∧
    linkedEx.schools = [7] ∧ linkedEx.schools.Nodup ∧
    ((7 : Int) ∈ linkedEx.schools ↔ (7 : Int) ∈ jtEx.school_memberships.map
      SchoolMembershipRow.school_memberships_school_id) := by
  have h := schools_synthesized_lazily cvEx jtEx linkedEx rfl rfl
  exact ⟨rfl, rfl, by decide, h.1, h.2.1 7⟩

/-- C7 witness: the example email resolved to professional `p1`, which holds
it in its email collection. -/
theorem email_recipient_resolution_witness :
    cvEx.linked = false ∧ CV.link cvEx jtEx = .ok linkedEx ∧
    emailEx ∈ cvEx.emails ∧
    ("p1" ∈ cvEx.professionals.map Professional.professionals_id ∧
      linkedEx.emailRecipient "e1" = some "p1" ∧
      "e1" ∈ (linkedEx.profEmails "p1").items) := by
  refine ⟨rfl, rfl, by decide, ?_⟩
  exact email_recipient_resolution cvEx jtEx linkedEx rfl rfl emailEx
    (by decide)

end CareerVillage
